import Mathlib

/-!
Verification development for the document-processor backend (`src/main.py`).

The file shallowly embeds the text-processing core of the program:

* `generate_regex_from_sample` (main.py lines 42-62): sample parsing and
  regex-pattern emission;
* the search semantics of the emitted pattern (`searchDerived`);
* `handle_tab4`'s page-range resolution and term/page matching loop
  (main.py lines 164-213): `pyParseRange`, `pageIter`, `locateTerm`,
  `renderPages`;
* `handle_tab1`'s format/deduplicate pipeline (main.py lines 66-116):
  `handle_tab1Core`;
* `handle_tab5`'s table consolidation (main.py lines 215-242): `tab5Core`;
* `process_name_line_s1` (main.py lines 27-40): `process_name_line_s1`.

Library-backed pieces that are outside the modeled core (DOCX/PDF
container parsing, HTTP transport) enter the embedding as plain inputs:
a page is its extracted text, a table row is its list of cell texts, a
`re.findall` result is a list of match items.
-/

/-! ## Character classes

Python's `str.split()` / `str.strip()` and the regex class `\s` (on `str`
patterns) agree on the whitespace set: the ASCII whitespace characters,
the C1 separators 0x1C-0x1F and 0x85, and the Unicode space/line/paragraph
separators. -/

def isPyWS (c : Char) : Bool :=
  c = ' ' || c = '\t' || c = '\n' || c = '\r' ||
  c.toNat = 0x0B || c.toNat = 0x0C ||
  c.toNat = 0x1C || c.toNat = 0x1D || c.toNat = 0x1E || c.toNat = 0x1F ||
  c.toNat = 0x85 || c.toNat = 0xA0 || c.toNat = 0x1680 ||
  (0x2000 ≤ c.toNat && c.toNat ≤ 0x200A) ||
  c.toNat = 0x2028 || c.toNat = 0x2029 || c.toNat = 0x202F ||
  c.toNat = 0x205F || c.toNat = 0x3000

/-- The regex class `[가-힣]` (precomposed Hangul syllables U+AC00-U+D7A3). -/
def isHangulSyl (c : Char) : Bool :=
  0xAC00 ≤ c.toNat && c.toNat ≤ 0xD7A3

/-- The regex class `[a-zA-Z]`. -/
def isLatinLetter (c : Char) : Bool :=
  ('a' ≤ c && c ≤ 'z') || ('A' ≤ c && c ≤ 'Z')

/-- The regex class `[0-9]`. -/
def isAsciiDigit (c : Char) : Bool :=
  '0' ≤ c && c ≤ '9'

/-- The delimiter class of `generate_regex_from_sample`'s sample parser:
`[^가-힣a-zA-Z0-9\s]` (main.py line 48). -/
def delimClassB (c : Char) : Bool :=
  !(isHangulSyl c) && !(isLatinLetter c) && !(isAsciiDigit c) && !(isPyWS c)

/-- The character class of the emitted pattern's first capture group:
`[가-힣A-Za-z0-9\s.]` (main.py line 55). -/
def g1char (c : Char) : Bool :=
  isHangulSyl c || isLatinLetter c || isAsciiDigit c || isPyWS c || c = '.'

/-- The character class of the emitted pattern's second capture group
(single term): `[A-Za-z0-9\s.\-()À-ſ一-鿿]`
(main.py line 58). -/
def g2char (c : Char) : Bool :=
  isLatinLetter c || isAsciiDigit c || isPyWS c ||
  c = '.' || c = '-' || c = '(' || c = ')' ||
  (0xC0 ≤ c.toNat && c.toNat ≤ 0x17F) ||
  (0x4E00 ≤ c.toNat && c.toNat ≤ 0x9FFF)

/-! ## Python string helpers -/

/-- Python `str.strip()`: remove leading and trailing whitespace. -/
def pyStrip (s : String) : String :=
  String.mk (((s.data.dropWhile isPyWS).reverse.dropWhile isPyWS).reverse)

/-- `"".join(term.split())`, i.e. the whitespace-normalized form used by
`handle_tab4` (main.py lines 182 and 186): drop every whitespace character. -/
def normWS (s : String) : String :=
  String.mk (s.data.filter (fun c => !isPyWS c))

/-- Python's substring test `needle in hay`. -/
def substrB (needle : List Char) : List Char → Bool
  | [] => needle.isEmpty
  | c :: t => needle.isPrefixOf (c :: t) || substrB needle t

/-- Python `str.split()` on a character list: maximal runs of
non-whitespace characters, in order, with no empty tokens. -/
def pySplitChars : List Char → List (List Char)
  | [] => []
  | c :: cs =>
      if isPyWS c then pySplitChars cs
      else
        match pySplitChars cs, cs.head? with
        | t :: ts, some c' =>
            if isPyWS c' then [c] :: t :: ts else (c :: t) :: ts
        | t :: ts, none => (c :: t) :: ts
        | [], _ => [[c]]

/-- Python `str.split()` returning strings. -/
def pySplit (s : String) : List String :=
  (pySplitChars s.data).map String.mk

/-- The longest prefix of `cs` whose characters all satisfy `p`
(length of the run a greedy regex class repetition consumes). -/
def maxRun (p : Char → Bool) : List Char → Nat
  | [] => 0
  | c :: cs => if p c then maxRun p cs + 1 else 0

/-! ## `handle_tab4`: page-range resolution (main.py lines 175-181)

`pyParseRange` is the match of `^\s*(\d+)\s*-\s*(\d+)\s*$` plus `int()`
on both groups.  The regex is deterministic (digits, whitespace and `-`
are pairwise disjoint classes), so greedy scanning needs no backtracking.
Python's `\d` also accepts non-ASCII decimal digits, which `int()`
converts identically; those do not occur in any claim and are not
modeled. -/

def parseNatDigits (cs : List Char) : Nat :=
  cs.foldl (fun n c => n * 10 + (c.toNat - 48)) 0

def pyParseRange (s : String) : Option (Nat × Nat) :=
  let cs := s.data.dropWhile isPyWS
  let d1 := cs.takeWhile isAsciiDigit
  let r2 := (cs.dropWhile isAsciiDigit).dropWhile isPyWS
  match d1, r2 with
  | [], _ => none
  | _ :: _, '-' :: r3 =>
      let r4 := r3.dropWhile isPyWS
      let d2 := r4.takeWhile isAsciiDigit
      let r5 := (r4.dropWhile isAsciiDigit).dropWhile isPyWS
      if d2 ≠ [] ∧ r5 = [] then some (parseNatDigits d1, parseNatDigits d2)
      else none
  | _ :: _, _ => none

/-- The page-index sequence `handle_tab4` scans: `range(total_pages)`
unless the user-supplied range string parses and
`0 <= start_page < end_page <= total_pages` holds for
`start_page = int(g1) - 1`, `end_page = int(g2)` (Python integers, hence
the `Int` arithmetic).  `if page_range_str:` is false for both `None` and
the empty string. -/
def pageIter (total : Nat) (rangeStr : Option String) : List Nat :=
  match rangeStr with
  | none => List.range total
  | some s =>
      if s = "" then List.range total
      else
        match pyParseRange s with
        | none => List.range total
        | some (a, b) =>
            if 0 ≤ (a : Int) - 1 ∧ (a : Int) - 1 < (b : Int) ∧ (b : Int) ≤ (total : Int)
            then List.range' (a - 1) (b - (a - 1))
            else List.range total

/-! ## `handle_tab4`: the matching loop (main.py lines 182-190)

The Python loop scans pages in iterator order and, per term, appends
`page_num + 1` when the normalized term occurs in the normalized page
text and the page number is not yet recorded.  The per-term result lists
in the `results` dict are independent of each other, so the loop is
modeled one term at a time. -/

def locateTermGo (pages : List String) (needle : List Char) :
    List Nat → List Nat → List Nat
  | [], acc => acc
  | i :: rest, acc =>
      let ptext := (normWS (pages.getD i (""))).data
      if ptext = [] then locateTermGo pages needle rest acc
      else if substrB needle ptext ∧ (i + 1) ∉ acc then
        locateTermGo pages needle rest (acc ++ [i + 1])
      else locateTermGo pages needle rest acc

/-- The page-number list `handle_tab4` records for one search term. -/
def locateTerm (pages : List String) (idxs : List Nat) (term : String) : List Nat :=
  locateTermGo pages (normWS term).data idxs []

/-- Rendering of one term's result column (main.py line 207):
`", ".join(map(str, sorted(found_pages))) if found_pages else "PDF에서 찾을 수 없음"`. -/
def renderPages (l : List Nat) : String :=
  if l = [] then "PDF에서 찾을 수 없음"
  else String.intercalate (", ") ((List.insertionSort (· ≤ ·) l).map (fun n => toString n))

/-! ## `generate_regex_from_sample` (main.py lines 42-62)

Sample parsing.

Line 48 matches the sample against
`^\s*(.+?)\s*([^가-힣a-zA-Z0-9\s])(.*?)\2\s*$`.
A string admits such a match exactly when it decomposes as

  whitespace* ++ A ++ whitespace* ++ [d] ++ B ++ [d] ++ whitespace*

with `A` nonempty and newline-free (`.` does not match `\n`), `B`
newline-free, and `d` in the delimiter class; `\s*$` forces the closing
delimiter occurrence to be followed by whitespace only (the
`$`-before-final-newline case is subsumed because `\n` is whitespace).
Because whitespace characters are excluded from the delimiter class, at
most one position can host the closing delimiter (it must be the last
non-whitespace character), so every successful match reports the same
group 2 — the only capture the function uses.  `deriveParse` therefore
scans for the closing position `j` and then for any opening position
`i < j`; the backtracking order of Python's engine cannot change its
answer. -/

/-- Does the list satisfy `(?:\s*)(.+?)(?:\s*)` as a whole, i.e. split as
`ws* ++ (nonempty newline-free) ++ ws*`?  (The part of the sample before
the opening delimiter must.) -/
def prefixSplittable (t : List Char) : Bool :=
  (List.range (t.length + 1)).any fun p =>
    (List.range (t.length + 1)).any fun q =>
      decide (p < q) && (t.take p).all isPyWS && (t.drop q).all isPyWS &&
        ((t.drop p).take (q - p)).all (fun c => decide (c ≠ '\n'))

/-- Can position `j` host the closing delimiter occurrence (`\2\s*$`)? -/
def okClose (cs : List Char) (j : Nat) : Bool :=
  delimClassB (cs.getD j ' ') && (cs.drop (j + 1)).all isPyWS

/-- Can position `i` host the opening delimiter when `j` hosts the closing
one?  (`^\s*(.+?)\s*` before `i`, `(.*?)` strictly between.) -/
def okOpen (cs : List Char) (i j : Nat) : Bool :=
  decide (cs.getD i ' ' = cs.getD j ' ') &&
    ((cs.drop (i + 1)).take (j - (i + 1))).all (fun c => decide (c ≠ '\n')) &&
    prefixSplittable (cs.take i)

/-- The result of line 48's `re.match`, reduced to the only capture the
function consumes: group 2, the delimiter character. -/
def deriveParse (cs : List Char) : Option Char :=
  match (List.range cs.length).find? (fun j => okClose cs j) with
  | none => none
  | some j =>
      if (List.range j).any (fun i => okOpen cs i j) then some (cs.getD j ' ')
      else none

/-- Python 3.7+ `re.escape`: prefix a backslash to every character that is
special in a pattern, leave the rest unchanged. -/
def reEscape (c : Char) : String :=
  if c ∈ ['(', ')', '[', ']', '?', '*', '+', '-', '|', '^', '$', '\\', '.', '&', '~', '#',
           ' ', '\t', '\n', '\r', '\x0b', '\x0c'] ||
     c.toNat = 0x7b || c.toNat = 0x7d
  then String.mk ['\\', c] else String.mk [c]

/-- The fixed first-group pattern text of main.py line 55. -/
def part1Pattern : String :=
  "[가-힣A-Za-z0-9\\s.]\x7b1,20\x7d"

/-- The fixed single-term pattern text of main.py line 58 (a raw Python
string: the `\uXXXX` escapes stay textual and are interpreted by `re`). -/
def singleTermPattern : String :=
  "[A-Za-z0-9\\s.\\-()\\u00C0-\\u017F\\u4E00-\\u9FFF]+"

/-- The second-group pattern text of main.py line 59. -/
def part2Pattern : String :=
  singleTermPattern ++ "(?:,\\s*" ++ singleTermPattern ++ ")*"

/-- The pattern string emitted for delimiter `d` (main.py line 62). -/
def mkDerivedPattern (d : Char) : String :=
  "(" ++ part1Pattern ++ ")" ++ reEscape d ++ "(" ++ part2Pattern ++ ")" ++ reEscape d

/-- `generate_regex_from_sample` (main.py lines 42-62).  The only failure
is the `ValueError` of line 50; `/api/generate-regex` maps it to
HTTP 400. -/
def generate_regex_from_sample (sample : String) : Except String String :=
  match deriveParse sample.data with
  | none => Except.error ("입력 형식이 올바르지 않습니다. '용어<기호>원어<기호>' 형식으로 입력해주세요. 예: 라몬즈+Ramones+")
  | some d => Except.ok (mkDerivedPattern d)

/-! ### Search semantics of the emitted pattern

`handle_tab1` runs the emitted pattern over document text and claim C1
runs it (via `re.search`) over the sample itself.  The pattern is
`(G1\x7b1,20\x7d) d (C+(?:,\s*C+)*) d` with `G1 = g1char`, `C = g2char`
and `d` the escaped delimiter, so its `re.search` semantics is fixed up
to `d`; `searchDerived d` is that semantics: leftmost start position,
greedy repetitions with backtracking, first match wins, groups reported
as slices.

Two faithful simplifications, both value-preserving:
* inside one `,\s*C+` chunk the engine backtracks over the split between
  `\s*` and `C+`; since `\s ⊆ C`, the reachable chunk lengths are exactly
  `1..maxRun C` and the engine's first success equals the first success
  of trying those lengths longest-first (`tryChunks`);
* continuations depend only on the remaining text and group values only
  on slice boundaries, so collapsing duplicate backtracking paths cannot
  change the reported match.

The `fuel` argument only bounds the recursion; every `g2star` round trip
consumes at least two characters (a comma and a nonempty chunk), so any
`fuel` exceeding the text length is never exhausted. -/

/-- Try chunk lengths `m, m-1, ..., 1` for one greedy `C+` run at `rest`,
continuing with `cont` after the chunk; returns the total consumed length
on the first success. -/
def tryChunks (cont : List Char → Option Nat) (rest : List Char) : Nat → Option Nat
  | 0 => none
  | m + 1 =>
      match cont (rest.drop (m + 1)) with
      | some n => some (m + 1 + n)
      | none => tryChunks cont rest m

/-- Matcher for `(?:,\s*C+)*` followed by the literal closing delimiter,
at `cs`; returns the length the starred part consumes.  The star is
greedy: a further iteration is tried before exiting to the literal. -/
def g2star (d : Char) : Nat → List Char → Option Nat
  | 0, _ => none
  | fuel + 1, cs =>
      match cs with
      | [] => none
      | c :: rest =>
          if c = ',' then
            match tryChunks (g2star d fuel) rest (maxRun g2char rest) with
            | some n => some (n + 1)
            | none => if c = d then some 0 else none
          else if c = d then some 0 else none

/-- Matcher for group 2 (`C+(?:,\s*C+)*`) followed by the literal closing
delimiter, at `cs`; returns the length group 2 consumes. -/
def g2match (d : Char) (cs : List Char) : Option Nat :=
  tryChunks (g2star d (cs.length + 1)) cs (maxRun g2char cs)

/-- Matcher for the whole pattern anchored at the current position:
group 1 lengths are tried greedily from `n` down to 1; after each, the
literal delimiter and then group 2 must match.  Returns (group 1 length,
group 2 length). -/
def tryG1 (d : Char) (cs : List Char) : Nat → Option (Nat × Nat)
  | 0 => none
  | n + 1 =>
      match cs.drop (n + 1) with
      | c :: rest =>
          if c = d then
            match g2match d rest with
            | some k => some (n + 1, k)
            | none => tryG1 d cs n
          else tryG1 d cs n
      | [] => tryG1 d cs n

/-- `re.search` of the emitted pattern over `cs`: try each start position
left to right, and at each the group 1 lengths `min 20 (maxRun g1char)`
down to 1.  Returns the two captured groups. -/
def searchDerived (d : Char) : List Char → Option (List Char × List Char)
  | [] => none
  | c :: rest =>
      match tryG1 d (c :: rest) (min 20 (maxRun g1char (c :: rest))) with
      | some (n, k) => some (((c :: rest).take n, ((c :: rest).drop (n + 1)).take k))
      | none => searchDerived d rest

/-! ## `handle_tab1` (main.py lines 66-116)

The regex application itself (`re.compile` / `re.findall`) is Python's
`re` library, a service at the model boundary: `handle_tab1Core` takes
the compile outcome as a flag and the `findall` result as data.
`re.findall` yields plain strings when the pattern has at most one
capture group and, for two or more groups, tuples whose arity is the
group count — so a tuple item always carries at least two groups, which
`FindallItem.tup` records as two strings plus the remaining groups
(the source only reads `match[0]` and `match[1]` after its
`len(match) >= 2` check). -/

inductive FindallItem : Type
  | str (s : String)
  | tup (g1 g2 : String) (rest : List String)
deriving DecidableEq

/-- The two exception types `process_task` distinguishes: `ValueError`
becomes HTTP 400, anything else (here: the `TypeError` of `len(None)`)
falls to the generic 500 handler. -/
inductive PyErr : Type
  | valueError (msg : String)
  | typeError (msg : String)
deriving DecidableEq

/-- Formatting of one `findall` item (main.py lines 84-101): a tuple item
contributes `strip(g1) + prefix + strip(g2) + suffix` when both stripped
groups are nonempty, a string item contributes its stripped self when
nonempty; other items are skipped.  (The later `if formatted_item` truth
test of line 103 is redundant: every produced item is nonempty.) -/
def tab1FmtItem (pre suf : String) : FindallItem → Option String
  | FindallItem.tup g1 g2 _ =>
      if pyStrip g1 ≠ "" ∧ pyStrip g2 ≠ "" then
        some (pyStrip g1 ++ pre ++ pyStrip g2 ++ suf)
      else none
  | FindallItem.str s =>
      if pyStrip s ≠ "" then some (pyStrip s) else none

/-- The de-duplication loop of main.py lines 82-105: walk the formatted
items, appending each one not yet in the output.  (Python keeps a
separate `seen` set; it always holds exactly the output's elements, so
membership in the accumulator is the same test.) -/
def dedupSeenGo : List String → List String → List String
  | [], acc => acc
  | x :: xs, acc =>
      if x ∈ acc then dedupSeenGo xs acc else dedupSeenGo xs (acc ++ [x])

/-- `handle_tab1` after the document is read: `patternOk` is whether
`re.compile` succeeded (line 69), `ms` the `findall` result (line 74),
`dec` the decorator form field (`None` when the request omits it).
`len(None)` on line 78 raises `TypeError`. -/
def handle_tab1Core (patternOk : Bool) (ms : List FindallItem) (dec : Option String) :
    Except PyErr (List String) :=
  if patternOk = false then
    Except.error (PyErr.valueError ("제공된 정규식 패턴이 유효하지 않습니다."))
  else if ms = [] then
    Except.error (PyErr.valueError ("정규식과 일치하는 내용을 찾지 못했습니다."))
  else
    match dec with
    | none => Except.error (PyErr.typeError ("object of type 'NoneType' has no len()"))
    | some d =>
        let pre := if d.length = 1 then d
                   else if 2 ≤ d.length then String.mk [d.data.getD 0 ' '] else ""
        let suf := if d.length = 1 then d
                   else if 2 ≤ d.length then String.mk [d.data.getD 1 ' '] else ""
        let uniq := dedupSeenGo ((ms.filterMap (tab1FmtItem pre suf))) []
        if uniq = [] then
          Except.error (PyErr.valueError ("정규식과 일치하는 유효한 데이터를 찾지 못했습니다."))
        else Except.ok uniq

/-- The HTTP status `process_task` reports for a tab1 outcome
(main.py lines 298-309): success streams a file (200), `ValueError`
returns 400, any other exception returns 500. -/
def tab1HttpStatus : Except PyErr (List String) → Nat
  | Except.ok _ => 200
  | Except.error (PyErr.valueError _) => 400
  | Except.error (PyErr.typeError _) => 500

/-! ### Specification-side formulations for claim C5 -/

/-- The decorator prefix as claim C5 states it: empty decorator gives no
prefix, otherwise the first character. -/
def decoPre (d : String) : String :=
  match d.data with
  | [] => ""
  | c :: _ => String.mk [c]

/-- The decorator suffix as claim C5 states it: empty decorator gives no
suffix, a one-character decorator repeats its character, two or more
characters give the second. -/
def decoSuf (d : String) : String :=
  match d.data with
  | [] => ""
  | [c] => String.mk [c]
  | _ :: c2 :: _ => String.mk [c2]

/-- "Keep only the first occurrence of each line, in first-seen order",
written directly: keep the head, discard its later duplicates, recurse. -/
def keepFirsts : List String → List String
  | [] => []
  | x :: xs => x :: keepFirsts (xs.filter (fun y => decide (y ≠ x)))
termination_by l => l.length
decreasing_by
  simp only [List.length_cons]
  exact Nat.lt_succ_of_le (List.length_filter_le _ _)

/-! ## Python string ordering

Python compares strings lexicographically by Unicode code point; this is
the order `sorted` uses in `handle_tab5`.  (Lean's built-in `String`
order is the same order, but its implementation via `String.ltb` does
not reduce in the kernel, so the code-point comparison is spelled out.) -/

/-- Code-point lexicographic strict comparison of character lists. -/
def cpLtB : List Char → List Char → Bool
  | [], [] => false
  | [], _ :: _ => true
  | _ :: _, [] => false
  | a :: as, b :: bs =>
      if a.toNat < b.toNat then true
      else if b.toNat < a.toNat then false
      else cpLtB as bs

/-- Python's `<` on strings. -/
abbrev strLtP (a b : String) : Prop := cpLtB a.data b.data = true

/-- Python's `<=` on strings (the total order `sorted` is monotone
for). -/
abbrev strLeP (a b : String) : Prop := cpLtB b.data a.data = false

/-! ## `handle_tab5` (main.py lines 215-242) -/

/-- Processing of one data row (main.py lines 225-231): rows narrower
than four cells are skipped; otherwise columns 2-4 are stripped, and the
row emits `col2 + "    " + col4` when column 3 is blank (but column 2 is
not), `col3 + "    " + col4` when neither is blank, and nothing when
column 2 is blank. -/
def tab5EmitRow (cells : List String) : Option String :=
  if cells.length < 4 then none
  else
    let c2 := pyStrip (cells.getD 1 (""))
    let c3 := pyStrip (cells.getD 2 (""))
    let c4 := pyStrip (cells.getD 3 (""))
    if c2 ≠ "" ∧ c3 = "" then some (c2 ++ "    " ++ c4)
    else if c2 ≠ "" ∧ c3 ≠ "" then some (c3 ++ "    " ++ c4)
    else none

/-- `handle_tab5` on the first table's rows (each row its list of cell
texts; the `doc.tables` emptiness check lives at the container boundary).
`len(table.columns)` is the table grid's column count, modeled as the
header row's width.  `sorted(list(set(lines)))` is the unique ascending
arrangement of the distinct emitted lines: any duplicate-dropping pass
(`dedupSeenGo`) followed by any correct sort (`insertionSort`) computes
that same list, because sorting a duplicate-free list under a linear
order has a unique result. -/
def tab5Core (rows : List (List String)) : Except String (List String) :=
  if (rows.headD []).length < 4 then
    Except.error ("테이블이 4열 이상으로 구성되어야 합니다.")
  else
    let lines := (rows.drop 1).filterMap tab5EmitRow
    if lines = [] then
      Except.error ("테이블에서 처리할 데이터를 찾지 못했습니다.")
    else Except.ok (List.insertionSort strLeP (dedupSeenGo lines []))

/-! ## `process_name_line_s1` (main.py lines 27-40) -/

/-- Python `line.lstrip('*')`: drop every leading `*`. -/
def pyLstripStar (s : String) : String :=
  String.mk (s.data.dropWhile (fun c => decide (c = '*')))

/-- The match of `([가-힣\s]+)([a-zA-Z\s]+)` at the start of the text
(`re.match`, unanchored at the right): group 1 takes the Hangul/space
run greedily and gives characters back until group 2 can take at least
one Latin/space character; returns the two group lengths.  Greedy
backtracking: group 1 lengths are tried from `maxRun` down to 1. -/
def nameMatchGo (cs : List Char) : Nat → Option (Nat × Nat)
  | 0 => none
  | n + 1 =>
      let k := maxRun (fun c => isLatinLetter c || isPyWS c) (cs.drop (n + 1))
      if k = 0 then nameMatchGo cs n else some (n + 1, k)

def nameMatch (cs : List Char) : Option (Nat × Nat) :=
  nameMatchGo cs (maxRun (fun c => isHangulSyl c || isPyWS c) cs)

/-- Reordering of one script run (main.py lines 37 and 39): with two or
more space-separated tokens the last token leads, then a comma and the
remaining tokens space-joined; otherwise the run is returned as is. -/
def reformatPart (part : String) : String :=
  let names := pySplit part
  if 2 ≤ names.length then
    names.getLastD ("") ++ ", " ++ String.intercalate (" ") names.dropLast
  else part

/-- `process_name_line_s1` (main.py lines 27-40).
`line.startswith('*')` is the test that the first character is `*`. -/
def process_name_line_s1 (line : String) : Option String :=
  if line.data.head? ≠ some '*' then none
  else
    let text := pyStrip (pyLstripStar line)
    match nameMatch text.data with
    | none => none
    | some (n, k) =>
        let koreanPart := pyStrip (String.mk (text.data.take n))
        let englishPart := pyStrip (String.mk ((text.data.drop n).take k))
        some (reformatPart koreanPart ++ reformatPart englishPart)

/-! ## Specification-side predicate for the sample shape (claims C1, C4)

The declarative reading of line 48's regex, quantifying over the seven
segments of a successful match. -/

def deriveShape (cs : List Char) : Prop :=
  ∃ w1 a w2 d b w3,
    cs = w1 ++ a ++ w2 ++ [d] ++ b ++ [d] ++ w3 ∧
    (∀ c ∈ w1, isPyWS c = true) ∧
    a ≠ [] ∧ (∀ c ∈ a, c ≠ '\n') ∧
    (∀ c ∈ w2, isPyWS c = true) ∧
    delimClassB d = true ∧
    (∀ c ∈ b, c ≠ '\n') ∧
    (∀ c ∈ w3, isPyWS c = true)

/-! # Theorems -/

set_option maxRecDepth 4000

/-! ## Claim C7 -/

/-- Claim C7 (counterexample).  The claim states that
`NameReformatter("*홍 길동 Gil-dong Hong")` reorders the Latin run
"Gil-dong Hong" to "Hong, Gil-dong" and returns "길동, 홍Hong, Gil-dong".
On the code, the Latin-run class `[a-zA-Z\s]+` stops at the hyphen of
"Gil-dong", so group 2 captures only "Gil" and the function returns
"길동, 홍Gil". -/
theorem c7_counterexample :
    process_name_line_s1 ("*홍 길동 Gil-dong Hong") = some ("길동, 홍Gil") ∧
    ("길동, 홍Gil" : String) ≠ "길동, 홍" ++ "Hong, Gil-dong" := by
  exact ⟨rfl, by decide⟩

/-- Claim C7 (corrected).  `NameReformatter` on "*홍 길동 Gil-dong Hong"
reorders the Hangul run "홍 길동" to "길동, 홍"; the Latin-run capture
stops at the first character outside `[a-zA-Z\s]`, so it is the single
token "Gil", which passes through unchanged; the result is the
concatenation of the two with no separator: "길동, 홍Gil". -/
theorem c7_amended :
    process_name_line_s1 ("*홍 길동 Gil-dong Hong") = some ("길동, 홍" ++ "Gil") := by
  exact rfl

/-! ## Claim C9 -/

/-- Claim C9 (confirmed).  In `process_name_line_s1`'s run reordering, a
script run with a single space-separated token is passed through
unchanged (no comma, no reordering); a run with two or more tokens is
rewritten to last token, comma, remaining tokens. -/
theorem claim_c9 (part : String) :
    ((pySplit part).length = 1 → reformatPart part = part) ∧
    (2 ≤ (pySplit part).length →
      reformatPart part =
        (pySplit part).getLastD ("") ++ ", " ++
          String.intercalate (" ") (pySplit part).dropLast) := by
  constructor
  · intro h
    unfold reformatPart
    rw [if_neg]
    omega
  · intro h
    unfold reformatPart
    rw [if_pos h]

/-- Witness for C9: the single-token Latin run "Gil" of the C7 input is
returned unchanged. -/
theorem c9_witness : (pySplit ("Gil")).length = 1 ∧ reformatPart ("Gil") = "Gil" :=
  ⟨rfl, (claim_c9 ("Gil")).1 rfl⟩

/-! ## Claim C3 -/

/-- Claim C3 (counterexample).  The claim allows a restricted scan only
when `1 ≤ start < end ≤ totalPages` and demands a full scan for every
range violating that invariant.  The range string "3-3" violates it
(start = end), yet with 3 total pages the code scans only page 3: the
Python guard `0 <= start_page < end_page <= total_pages` compares
`start - 1 < end`, which admits `start = end`. -/
theorem c3_counterexample :
    ¬(1 ≤ 3 ∧ 3 < 3 ∧ 3 ≤ 3) ∧
    pageIter 3 (some ("3-3")) = [2] ∧
    pageIter 3 (some ("3-3")) ≠ List.range 3 := by
  refine ⟨by omega, rfl, by decide⟩

/-- Claim C3 (corrected).  `handle_tab4` restricts its scan to the
caller-supplied range exactly when the range string parses as
`start-end` with `1 ≤ start ≤ end ≤ totalPages` (start may equal end);
an absent range, an unparsable string, or any range violating this
invariant yields a full scan of all pages, and no case raises an error
(`pageIter` is total). -/
theorem claim_c3 (total : Nat) (s : String) (a b : Nat) :
    pageIter total none = List.range total ∧
    (pyParseRange s = none → pageIter total (some s) = List.range total) ∧
    (pyParseRange s = some (a, b) → ¬(1 ≤ a ∧ a ≤ b ∧ b ≤ total) →
      pageIter total (some s) = List.range total) ∧
    (pyParseRange s = some (a, b) → (1 ≤ a ∧ a ≤ b ∧ b ≤ total) →
      pageIter total (some s) = List.range' (a - 1) (b - (a - 1))) := by
  refine ⟨rfl, ?_, ?_, ?_⟩
  · intro hp
    by_cases hs : s = ""
    · simp [pageIter, hs]
    · simp [pageIter, hs, hp]
  · intro hp hcond
    by_cases hs : s = ""
    · subst hs
      exact absurd hp (by simp [pyParseRange])
    · simp only [pageIter, if_neg hs, hp]
      rw [if_neg]
      intro hx
      obtain ⟨h1, h2, h3⟩ := hx
      exact hcond ⟨by omega, by omega, by omega⟩
  · intro hp hcond
    by_cases hs : s = ""
    · subst hs
      exact absurd hp (by simp [pyParseRange])
    · obtain ⟨h1, h2, h3⟩ := hcond
      simp only [pageIter, if_neg hs, hp]
      rw [if_pos]
      exact ⟨by omega, by omega, by omega⟩

/-- Witness for C3: the range string "5-3" of the claim parses to
(5, 3), violates the invariant, and the scan covers all 5 pages. -/
theorem c3_witness :
    pyParseRange ("5-3") = some (5, 3) ∧ pageIter 5 (some ("5-3")) = List.range 5 :=
  ⟨rfl, (claim_c3 5 ("5-3") 5 3).2.2.1 rfl (by omega)⟩

/-! ## Lemmas about the matching loop (claims C2, C8) -/

/-- Python's substring test agrees with the infix relation. -/
theorem substrB_eq_true_iff (needle hay : List Char) :
    substrB needle hay = true ↔ needle <:+: hay := by
  induction hay with
  | nil => simp [substrB, List.isEmpty_iff, List.infix_nil]
  | cons c t ih =>
      simp [substrB, Bool.or_eq_true, List.isPrefixOf_iff_prefix, ih, List.infix_cons_iff]

/-- Membership characterization of the matching loop: a number is
recorded exactly when it was already recorded or it is `i + 1` for a
scanned page `i` whose nonempty normalized text contains the needle.
(The `not in results` re-check only suppresses duplicates, which the
left disjunct absorbs.) -/
theorem mem_locateTermGo (pages : List String) (needle : List Char) :
    ∀ (idxs acc : List Nat) (n : Nat),
      n ∈ locateTermGo pages needle idxs acc ↔
        n ∈ acc ∨ ∃ i ∈ idxs,
          ((normWS (pages.getD i (""))).data ≠ [] ∧
            substrB needle (normWS (pages.getD i (""))).data = true) ∧ n = i + 1 := by
  intro idxs
  induction idxs with
  | nil =>
      intro acc n
      simp [locateTermGo]
  | cons i rest ih =>
      intro acc n
      simp only [locateTermGo]
      by_cases h1 : (normWS (pages.getD i (""))).data = []
      · rw [if_pos h1, ih]
        constructor
        · rintro (h | ⟨j, hj, hc⟩)
          · exact Or.inl h
          · exact Or.inr ⟨j, List.mem_cons_of_mem _ hj, hc⟩
        · rintro (h | ⟨j, hj, hc⟩)
          · exact Or.inl h
          · rcases List.mem_cons.mp hj with rfl | hj'
            · exact absurd h1 hc.1.1
            · exact Or.inr ⟨j, hj', hc⟩
      · rw [if_neg h1]
        by_cases h2 : substrB needle (normWS (pages.getD i (""))).data = true ∧ (i + 1) ∉ acc
        · rw [if_pos h2, ih]
          constructor
          · rintro (h | ⟨j, hj, hc⟩)
            · rcases List.mem_append.mp h with h | h
              · exact Or.inl h
              · have hn : n = i + 1 := by simpa using h
                exact Or.inr ⟨i, List.mem_cons_self _ _, ⟨h1, h2.1⟩, hn⟩
            · exact Or.inr ⟨j, List.mem_cons_of_mem _ hj, hc⟩
          · rintro (h | ⟨j, hj, hc⟩)
            · exact Or.inl (List.mem_append.mpr (Or.inl h))
            · rcases List.mem_cons.mp hj with rfl | hj'
              · exact Or.inl (List.mem_append.mpr (Or.inr (by simp [hc.2])))
              · exact Or.inr ⟨j, hj', hc⟩
        · rw [if_neg h2, ih]
          constructor
          · rintro (h | ⟨j, hj, hc⟩)
            · exact Or.inl h
            · exact Or.inr ⟨j, List.mem_cons_of_mem _ hj, hc⟩
          · rintro (h | ⟨j, hj, hc⟩)
            · exact Or.inl h
            · rcases List.mem_cons.mp hj with rfl | hj'
              · have hin : (j + 1) ∈ acc := by
                  by_contra hnin
                  exact h2 ⟨hc.1.2, hnin⟩
                exact Or.inl (hc.2 ▸ hin)
              · exact Or.inr ⟨j, hj', hc⟩

/-- The matching loop keeps the recorded numbers strictly increasing
when the scanned indices are strictly increasing. -/
theorem pairwise_locateTermGo (pages : List String) (needle : List Char) :
    ∀ (idxs acc : List Nat), idxs.Pairwise (· < ·) →
      (∀ x ∈ acc, ∀ i ∈ idxs, x < i + 1) → acc.Pairwise (· < ·) →
      (locateTermGo pages needle idxs acc).Pairwise (· < ·) := by
  intro idxs
  induction idxs with
  | nil =>
      intro acc _ _ hacc
      simpa [locateTermGo] using hacc
  | cons i rest ih =>
      intro acc hp hbound hacc
      obtain ⟨hi_rest, hp_rest⟩ := List.pairwise_cons.mp hp
      simp only [locateTermGo]
      by_cases h1 : (normWS (pages.getD i (""))).data = []
      · rw [if_pos h1]
        exact ih acc hp_rest
          (fun x hx j hj => hbound x hx j (List.mem_cons_of_mem _ hj)) hacc
      · rw [if_neg h1]
        by_cases h2 : substrB needle (normWS (pages.getD i (""))).data = true ∧ (i + 1) ∉ acc
        · rw [if_pos h2]
          apply ih _ hp_rest
          · intro x hx j hj
            rcases List.mem_append.mp hx with hx | hx
            · have hb := hbound x hx i (List.mem_cons_self _ _)
              have hij := hi_rest j hj
              omega
            · have hx' : x = i + 1 := by simpa using hx
              have hij := hi_rest j hj
              omega
          · rw [List.pairwise_append]
            refine ⟨hacc, List.pairwise_singleton _ _, ?_⟩
            intro x hx y hy
            have hy' : y = i + 1 := by simpa using hy
            subst hy'
            exact hbound x hx i (List.mem_cons_self _ _)
        · rw [if_neg h2]
          exact ih acc hp_rest
            (fun x hx j hj => hbound x hx j (List.mem_cons_of_mem _ hj)) hacc

/-- Every page iterator the code builds is strictly increasing. -/
theorem pairwise_pageIter (total : Nat) (rs : Option String) :
    (pageIter total rs).Pairwise (· < ·) := by
  rcases rs with _ | s
  · exact List.pairwise_lt_range total
  · by_cases hs : s = ""
    · simp only [pageIter, if_pos hs]
      exact List.pairwise_lt_range total
    · simp only [pageIter, if_neg hs]
      rcases hp : pyParseRange s with _ | ⟨a, b⟩
      · exact List.pairwise_lt_range total
      · show List.Pairwise (· < ·)
          (if 0 ≤ (a : Int) - 1 ∧ (a : Int) - 1 < (b : Int) ∧ (b : Int) ≤ (total : Int)
           then List.range' (a - 1) (b - (a - 1)) else List.range total)
        by_cases hc : 0 ≤ (a : Int) - 1 ∧ (a : Int) - 1 < (b : Int) ∧ (b : Int) ≤ (total : Int)
        · rw [if_pos hc]
          exact List.pairwise_lt_range' _ _
        · rw [if_neg hc]
          exact List.pairwise_lt_range total


/-- A term that survives `strip()` (as every extracted search term does,
main.py line 170) has a nonempty whitespace-normalized form. -/
theorem normWS_ne_nil_of_strip_ne (term : String) (h : pyStrip term ≠ "") :
    (normWS term).data ≠ [] := by
  intro hx
  apply h
  have hall : ∀ c ∈ term.data, isPyWS c = true := by
    intro c hc
    by_contra hcc
    have hmem : c ∈ (normWS term).data := by
      simp only [normWS]
      exact List.mem_filter.mpr ⟨hc, by simpa using hcc⟩
    rw [hx] at hmem
    exact absurd hmem (List.not_mem_nil c)
  unfold pyStrip
  rw [List.dropWhile_eq_nil_iff.mpr hall]
  rfl

/-! ## Claim C2 -/

/-- Claim C2 (confirmed).  For any page sequence and any search term that
survives `strip()` — the invariant `handle_tab4` guarantees for every
term it feeds the loop (main.py line 170) — the matching loop records a
page number `n` exactly when `n = i + 1` for a page `i` whose
whitespace-normalized text contains the whitespace-normalized term as a
substring; in particular locating "hello" over the single page
"h e l l o world" yields `[1]`. -/
theorem claim_c2 :
    (∀ (pages : List String) (term : String), pyStrip term ≠ "" → ∀ n : Nat,
        (n ∈ locateTerm pages (pageIter pages.length none) term ↔
          ∃ i, i < pages.length ∧ n = i + 1 ∧
            (normWS term).data <:+: (normWS (pages.getD i (""))).data)) ∧
    locateTerm (["h e l l o world"]) (pageIter 1 none) ("hello") = [1] := by
  constructor
  · intro pages term hterm n
    have hne : (normWS term).data ≠ [] := normWS_ne_nil_of_strip_ne term hterm
    rw [locateTerm, show pageIter pages.length none = List.range pages.length from rfl,
      mem_locateTermGo]
    simp only [List.not_mem_nil, false_or, List.mem_range]
    constructor
    · rintro ⟨i, hi, ⟨_, hsub⟩, rfl⟩
      exact ⟨i, hi, rfl, (substrB_eq_true_iff _ _).mp hsub⟩
    · rintro ⟨i, hi, rfl, hinf⟩
      refine ⟨i, hi, ⟨?_, (substrB_eq_true_iff _ _).mpr hinf⟩, rfl⟩
      intro hpe
      rw [hpe] at hinf
      exact hne (List.infix_nil.mp hinf)
  · rfl

/-- Witness for C2: the "hello" example, instantiating the general
direction at page 1. -/
theorem c2_witness :
    (1 ∈ locateTerm (["h e l l o world"]) (pageIter 1 none) ("hello")) ∧
    locateTerm (["h e l l o world"]) (pageIter 1 none) ("hello") = [1] :=
  ⟨(claim_c2.1 (["h e l l o world"]) ("hello") (by decide) 1).mpr
      ⟨0, by decide, rfl, by decide⟩,
    claim_c2.2⟩

/-! ## Claim C8 -/

/-- Claim C8 (confirmed).  Whatever the page range request, the page list
recorded for a term is strictly ascending (hence duplicate-free), and the
output column renders an empty list as the "not found" message — the
inner `sorted(found_pages)` is redundant on the already-sorted list, so
a nonempty list renders as the comma-joined page numbers themselves. -/
theorem claim_c8 (total : Nat) (rs : Option String) (pages : List String) (term : String) :
    (locateTerm pages (pageIter total rs) term).Pairwise (· < ·) ∧
    renderPages (locateTerm pages (pageIter total rs) term) =
      if locateTerm pages (pageIter total rs) term = [] then ("PDF에서 찾을 수 없음")
      else String.intercalate (", ")
        ((locateTerm pages (pageIter total rs) term).map (fun n => toString n)) := by
  have hpw : (locateTerm pages (pageIter total rs) term).Pairwise (· < ·) :=
    pairwise_locateTermGo pages _ _ [] (pairwise_pageIter total rs)
      (by intro x hx; exact absurd hx (List.not_mem_nil x)) List.Pairwise.nil
  refine ⟨hpw, ?_⟩
  unfold renderPages
  by_cases h : locateTerm pages (pageIter total rs) term = []
  · rw [if_pos h, if_pos h]
  · rw [if_neg h, if_neg h, List.Sorted.insertionSort_eq]
    exact hpw.imp (fun hlt => le_of_lt hlt)

/-! ## Lemmas about the de-duplication loop (claims C5, C6) -/

/-- The seen-set loop records exactly the lines of the input (past the
incoming accumulator). -/
theorem mem_dedupSeenGo :
    ∀ (l acc : List String) (x : String), x ∈ dedupSeenGo l acc ↔ x ∈ acc ∨ x ∈ l := by
  intro l
  induction l with
  | nil =>
      intro acc x
      simp [dedupSeenGo]
  | cons y ys ih =>
      intro acc x
      simp only [dedupSeenGo]
      by_cases h : y ∈ acc
      · rw [if_pos h, ih]
        simp only [List.mem_cons]
        constructor
        · tauto
        · rintro (hx | hx | hx)
          · exact Or.inl hx
          · exact Or.inl (hx ▸ h)
          · exact Or.inr hx
      · rw [if_neg h, ih]
        simp only [List.mem_append, List.mem_cons, List.mem_singleton]
        tauto
  
/-- The seen-set loop never emits a line twice. -/
theorem nodup_dedupSeenGo :
    ∀ (l acc : List String), acc.Nodup → (dedupSeenGo l acc).Nodup := by
  intro l
  induction l with
  | nil =>
      intro acc h
      simpa [dedupSeenGo] using h
  | cons y ys ih =>
      intro acc h
      simp only [dedupSeenGo]
      by_cases hy : y ∈ acc
      · rw [if_pos hy]
        exact ih acc h
      · rw [if_neg hy]
        refine ih _ ?_
        rw [List.nodup_append]
        refine ⟨h, List.nodup_singleton _, ?_⟩
        intro a ha hay
        have haeq : a = y := by simpa using hay
        exact hy (haeq ▸ ha)

/-- Characterization of one tab5 row's contribution, in the claim's
terms. -/
theorem tab5EmitRow_eq_some (cells : List String) (l : String) :
    tab5EmitRow cells = some l ↔
      4 ≤ cells.length ∧
      ((pyStrip (cells.getD 1 ("")) ≠ "" ∧ pyStrip (cells.getD 2 ("")) = "" ∧
          l = pyStrip (cells.getD 1 ("")) ++ "    " ++ pyStrip (cells.getD 3 (""))) ∨
       (pyStrip (cells.getD 1 ("")) ≠ "" ∧ pyStrip (cells.getD 2 ("")) ≠ "" ∧
          l = pyStrip (cells.getD 2 ("")) ++ "    " ++ pyStrip (cells.getD 3 ("")))) := by
  simp only [tab5EmitRow]
  by_cases hlen : cells.length < 4
  · rw [if_pos hlen]
    constructor
    · intro he
      exact absurd he (by simp)
    · rintro ⟨h4, -⟩
      omega
  · rw [if_neg hlen]
    have h4 : 4 ≤ cells.length := by omega
    by_cases hA : pyStrip (cells.getD 1 ("")) ≠ "" ∧ pyStrip (cells.getD 2 ("")) = ""
    · rw [if_pos hA]
      constructor
      · intro he
        exact ⟨h4, Or.inl ⟨hA.1, hA.2, (Option.some_inj.mp he).symm⟩⟩
      · rintro ⟨-, (⟨h1, h2, rfl⟩ | ⟨h1, h2, rfl⟩)⟩
        · rfl
        · exact absurd hA.2 h2
    · rw [if_neg hA]
      by_cases hB : pyStrip (cells.getD 1 ("")) ≠ "" ∧ pyStrip (cells.getD 2 ("")) ≠ ""
      · rw [if_pos hB]
        constructor
        · intro he
          exact ⟨h4, Or.inr ⟨hB.1, hB.2, (Option.some_inj.mp he).symm⟩⟩
        · rintro ⟨-, (⟨h1, h2, rfl⟩ | ⟨h1, h2, rfl⟩)⟩
          · exact absurd ⟨h1, h2⟩ hA
          · rfl
      · rw [if_neg hB]
        constructor
        · intro he
          exact absurd he (by simp)
        · rintro ⟨-, (⟨h1, h2, rfl⟩ | ⟨h1, h2, rfl⟩)⟩
          · exact absurd ⟨h1, h2⟩ hA
          · exact absurd ⟨h1, h2⟩ hB


/-! ## The code-point order is a linear order (claim C6) -/

theorem cpLtB_asymm : ∀ a b : List Char, cpLtB a b = true → cpLtB b a = false := by
  intro a
  induction a with
  | nil =>
      intro b h
      cases b with
      | nil => exact absurd h (by simp [cpLtB])
      | cons c cs => rfl
  | cons c cs ih =>
      intro b h
      cases b with
      | nil => exact absurd h (by simp [cpLtB])
      | cons d ds =>
          simp only [cpLtB] at h ⊢
          by_cases h1 : c.toNat < d.toNat
          · rw [if_neg (by omega), if_pos h1]
          · by_cases h2 : d.toNat < c.toNat
            · rw [if_neg h1, if_pos h2] at h
              exact absurd h (by simp)
            · rw [if_neg h1, if_neg h2] at h
              rw [if_neg h2, if_neg h1]
              exact ih ds h

theorem cpLtB_trans :
    ∀ a b c : List Char, cpLtB a b = true → cpLtB b c = true → cpLtB a c = true := by
  intro a
  induction a with
  | nil =>
      intro b c hab hbc
      cases c with
      | nil =>
          cases b with
          | nil => exact absurd hab (by simp [cpLtB])
          | cons _ _ => exact absurd hbc (by simp [cpLtB])
      | cons _ _ => rfl
  | cons x xs ih =>
      intro b c hab hbc
      cases b with
      | nil => exact absurd hab (by simp [cpLtB])
      | cons y ys =>
          cases c with
          | nil => exact absurd hbc (by simp [cpLtB])
          | cons z zs =>
              simp only [cpLtB] at hab hbc ⊢
              by_cases hxy : x.toNat < y.toNat
              · by_cases hyz : y.toNat < z.toNat
                · rw [if_pos (by omega)]
                · by_cases hzy : z.toNat < y.toNat
                  · rw [if_neg hyz, if_pos hzy] at hbc
                    exact absurd hbc (by simp)
                  · rw [if_pos (by omega)]
              · by_cases hyx : y.toNat < x.toNat
                · rw [if_neg hxy, if_pos hyx] at hab
                  exact absurd hab (by simp)
                · rw [if_neg hxy, if_neg hyx] at hab
                  by_cases hyz : y.toNat < z.toNat
                  · rw [if_pos (by omega)]
                  · by_cases hzy : z.toNat < y.toNat
                    · rw [if_neg hyz, if_pos hzy] at hbc
                      exact absurd hbc (by simp)
                    · rw [if_neg hyz, if_neg hzy] at hbc
                      rw [if_neg (by omega), if_neg (by omega)]
                      exact ih ys zs hab hbc

theorem cpLtB_eq_of_not :
    ∀ a b : List Char, cpLtB a b = false → cpLtB b a = false → a = b := by
  intro a
  induction a with
  | nil =>
      intro b h1 _
      cases b with
      | nil => rfl
      | cons _ _ => exact absurd h1 (by simp [cpLtB])
  | cons x xs ih =>
      intro b h1 h2
      cases b with
      | nil => exact absurd h2 (by simp [cpLtB])
      | cons y ys =>
          simp only [cpLtB] at h1 h2
          by_cases hxy : x.toNat < y.toNat
          · rw [if_pos hxy] at h1
            exact absurd h1 (by simp)
          · by_cases hyx : y.toNat < x.toNat
            · rw [if_pos hyx] at h2
              exact absurd h2 (by simp)
            · rw [if_neg hxy, if_neg hyx] at h1
              rw [if_neg hyx, if_neg hxy] at h2
              have hx : x = y := Char.ext (UInt32.toNat.inj (show x.toNat = y.toNat by omega))
              rw [hx, ih ys h1 h2]

theorem strLeP_total : ∀ a b : String, strLeP a b ∨ strLeP b a := by
  intro a b
  cases hx : cpLtB b.data a.data
  · exact Or.inl hx
  · exact Or.inr (cpLtB_asymm _ _ hx)

theorem strLeP_trans : ∀ a b c : String, strLeP a b → strLeP b c → strLeP a c := by
  intro a b c hab hbc
  cases hx : cpLtB c.data a.data
  · exact hx
  · exfalso
    cases hx2 : cpLtB a.data b.data
    · have heq : a.data = b.data := cpLtB_eq_of_not _ _ hx2 hab
      rw [heq] at hx
      rw [hbc] at hx
      exact Bool.noConfusion hx
    · have hcb := cpLtB_trans _ _ _ hx hx2
      rw [hbc] at hcb
      exact Bool.noConfusion hcb

theorem strLt_of_le_of_ne : ∀ a b : String, strLeP a b → a ≠ b → strLtP a b := by
  intro a b hle hne
  cases hx : cpLtB a.data b.data
  · exfalso
    have heq := cpLtB_eq_of_not _ _ hx hle
    exact hne (by cases a; cases b; exact congrArg String.mk heq)
  · exact hx

/-! ## Claim C6 -/

/-- Claim C6 (counterexample).  The claim applies its emptiness tests and
its concatenation to the raw cell texts; the code strips each cell first
(main.py line 226).  On a data row with column 2 equal to " a" (nonempty
raw, so the claim emits " a" + separator + column 4), the code emits the
stripped "a" + separator + column 4 instead. -/
theorem c6_counterexample :
    tab5Core ([["h1", "h2", "h3", "h4"], ["", " a", "", "b"]]) =
      Except.ok (["a" ++ "    " ++ "b"]) ∧
    ("a" ++ "    " ++ "b" : String) ≠ " a" ++ "    " ++ "b" := by
  exact ⟨rfl, by decide⟩

/-- Claim C6 (corrected).  `handle_tab5` processes every data row (header
excluded) with at least 4 cells: with cell texts whitespace-stripped,
when column 2 is nonempty and column 3 empty it emits
`col2 ++ "    " ++ col4`, when columns 2 and 3 are both nonempty it emits
`col3 ++ "    " ++ col4`, and otherwise skips the row; the successful
output consists of exactly the distinct emitted lines and is strictly
ascending in code-point order (so adjacent lines satisfy `x < y` and no
two output lines are equal). -/
theorem claim_c6 (rows : List (List String)) (out : List String)
    (hok : tab5Core rows = Except.ok out) :
    out.Pairwise strLtP ∧
    ∀ s : String, s ∈ out ↔ ∃ cells ∈ rows.drop 1, 4 ≤ cells.length ∧
      ((pyStrip (cells.getD 1 ("")) ≠ "" ∧ pyStrip (cells.getD 2 ("")) = "" ∧
          s = pyStrip (cells.getD 1 ("")) ++ "    " ++ pyStrip (cells.getD 3 (""))) ∨
       (pyStrip (cells.getD 1 ("")) ≠ "" ∧ pyStrip (cells.getD 2 ("")) ≠ "" ∧
          s = pyStrip (cells.getD 2 ("")) ++ "    " ++ pyStrip (cells.getD 3 ("")))) := by
  simp only [tab5Core] at hok
  split at hok
  · exact absurd hok (by simp)
  · split at hok
    · exact absurd hok (by simp)
    · injection hok with hout
      subst hout
      have hnd : (dedupSeenGo ((rows.drop 1).filterMap tab5EmitRow) []).Nodup :=
        nodup_dedupSeenGo _ [] List.nodup_nil
      have hperm := List.perm_insertionSort strLeP
        (dedupSeenGo ((rows.drop 1).filterMap tab5EmitRow) [])
      have hsorted : (List.insertionSort strLeP
          (dedupSeenGo ((rows.drop 1).filterMap tab5EmitRow) [])).Pairwise strLeP :=
        @List.sorted_insertionSort String strLeP _ ⟨strLeP_total⟩ ⟨strLeP_trans⟩ _
      have hnd' : (List.insertionSort strLeP
          (dedupSeenGo ((rows.drop 1).filterMap tab5EmitRow) [])).Nodup :=
        hperm.nodup_iff.mpr hnd
      constructor
      · exact (hsorted.and hnd').imp (fun hab => strLt_of_le_of_ne _ _ hab.1 hab.2)
      · intro s
        rw [hperm.mem_iff, mem_dedupSeenGo]
        simp only [List.not_mem_nil, false_or]
        rw [List.mem_filterMap]
        constructor
        · rintro ⟨cells, hc, he⟩
          exact ⟨cells, hc, (tab5EmitRow_eq_some cells s).mp he⟩
        · rintro ⟨cells, hc, hr⟩
          exact ⟨cells, hc, (tab5EmitRow_eq_some cells s).mpr hr⟩

/-- Witness for C6: a concrete two-data-row table, discharging the
success hypothesis by computation. -/
theorem c6_witness :
    (["a    b", "c    d"] : List String).Pairwise strLtP ∧
    ∀ s : String, s ∈ (["a    b", "c    d"] : List String) ↔
      ∃ cells ∈ ([["h1", "h2", "h3", "h4"], ["x", "a", "", "b"], ["y", "a", "c", "d"]] :
          List (List String)).drop 1, 4 ≤ cells.length ∧
        ((pyStrip (cells.getD 1 ("")) ≠ "" ∧ pyStrip (cells.getD 2 ("")) = "" ∧
            s = pyStrip (cells.getD 1 ("")) ++ "    " ++ pyStrip (cells.getD 3 (""))) ∨
         (pyStrip (cells.getD 1 ("")) ≠ "" ∧ pyStrip (cells.getD 2 ("")) ≠ "" ∧
            s = pyStrip (cells.getD 2 ("")) ++ "    " ++ pyStrip (cells.getD 3 ("")))) :=
  claim_c6 ([["h1", "h2", "h3", "h4"], ["x", "a", "", "b"], ["y", "a", "c", "d"]])
    (["a    b", "c    d"]) rfl

/-! ## Claim C5: the seen-set loop keeps first occurrences -/

/-- The seen-set loop computes `keepFirsts` of the remaining lines not
already emitted. -/
theorem dedupSeenGo_eq_keepFirsts :
    ∀ (l acc : List String),
      dedupSeenGo l acc = acc ++ keepFirsts (l.filter (fun y => decide (y ∉ acc))) := by
  intro l
  induction l with
  | nil =>
      intro acc
      simp [dedupSeenGo, keepFirsts]
  | cons x xs ih =>
      intro acc
      simp only [dedupSeenGo]
      by_cases hx : x ∈ acc
      · rw [if_pos hx, ih]
        have hf : (x :: xs).filter (fun y => decide (y ∉ acc)) =
            xs.filter (fun y => decide (y ∉ acc)) := by
          simp [hx]
        rw [hf]
      · rw [if_neg hx, ih]
        have hf : (x :: xs).filter (fun y => decide (y ∉ acc)) =
            x :: xs.filter (fun y => decide (y ∉ acc)) := by
          simp [hx]
        rw [hf, keepFirsts, List.filter_filter, List.append_assoc, List.singleton_append]
        congr 2
        refine congrArg keepFirsts (List.filter_congr ?_)
        intro y _
        rw [show (decide (y ≠ x) && decide (y ∉ acc)) = decide (y ≠ x ∧ y ∉ acc) from
          (Bool.decide_and _ _).symm]
        apply decide_eq_decide.mpr
        simp only [List.mem_append, List.mem_singleton, not_or]
        tauto

/-- Main.py lines 82-105 as a whole: de-duplication keeps exactly the
first occurrence of each formatted line, in first-seen order. -/
theorem dedupSeenGo_nil_eq (l : List String) : dedupSeenGo l [] = keepFirsts l := by
  rw [dedupSeenGo_eq_keepFirsts]
  have hf : l.filter (fun y => decide (y ∉ ([] : List String))) = l := by
    apply List.filter_eq_self.mpr
    intro a _
    simp
  rw [hf, List.nil_append]

/-- The decorator handling of main.py lines 77-81 computes exactly the
claim's prefix/suffix rule. -/
theorem tab1_decorator_eq (d : String) :
    ((if d.length = 1 then d
      else if 2 ≤ d.length then String.mk [d.data.getD 0 ' '] else "") = decoPre d) ∧
    ((if d.length = 1 then d
      else if 2 ≤ d.length then String.mk [d.data.getD 1 ' '] else "") = decoSuf d) := by
  obtain ⟨data⟩ := d
  match data with
  | [] => exact ⟨rfl, rfl⟩
  | [c] => exact ⟨rfl, rfl⟩
  | c :: c2 :: cs =>
      have h1 : ¬(String.mk (c :: c2 :: cs)).length = 1 := by
        simp [String.length]
      have h2 : 2 ≤ (String.mk (c :: c2 :: cs)).length := by
        simp [String.length]
      constructor
      · rw [if_neg h1, if_pos h2]
        rfl
      · rw [if_neg h1, if_pos h2]
        rfl

/-- Claim C5 (counterexample).  The claim formats a two-group match as
`group1 + prefix + group2 + suffix`; the code strips each group first
(main.py line 90).  With the single match `(" a", "b")` and an empty
decorator, the claim's format gives " ab" while the code emits "ab". -/
theorem c5_counterexample :
    handle_tab1Core true ([FindallItem.tup (" a") ("b") []]) (some ("")) =
      Except.ok (["ab"]) ∧
    (["ab"] : List String) ≠ [" a" ++ "" ++ "b" ++ ""] := by
  exact ⟨rfl, by decide⟩

/-- Claim C5 (corrected).  With a compiling pattern, `handle_tab1`
succeeds exactly when `findall` returned at least one match and at least
one match formats to a valid entry; each two-group match contributes
`strip(group1) + prefix + strip(group2) + suffix` (skipped when either
stripped group is empty), where an empty decorator yields empty
prefix/suffix, a one-character decorator that character on both sides,
and a longer decorator its first/second characters; the output keeps
only the first occurrence of each formatted line, in first-seen order.
Failures (`ms = []`, or no valid entry) raise `ValueError`. -/
theorem claim_c5 (ms : List FindallItem) (d : String) (out : List String) :
    handle_tab1Core true ms (some d) = Except.ok out ↔
      (ms ≠ [] ∧
       out = keepFirsts (ms.filterMap (tab1FmtItem (decoPre d) (decoSuf d))) ∧
       keepFirsts (ms.filterMap (tab1FmtItem (decoPre d) (decoSuf d))) ≠ []) := by
  simp only [handle_tab1Core]
  rw [if_neg (by simp : ¬(true = false))]
  by_cases hms : ms = []
  · rw [if_pos hms]
    simp [hms]
  · rw [if_neg hms]
    rw [(tab1_decorator_eq d).1, (tab1_decorator_eq d).2, dedupSeenGo_nil_eq]
    by_cases hu : keepFirsts (ms.filterMap (tab1FmtItem (decoPre d) (decoSuf d))) = []
    · rw [if_pos hu]
      simp [hms, hu]
    · rw [if_neg hu]
      constructor
      · intro h
        injection h with h
        exact ⟨hms, h.symm, hu⟩
      · rintro ⟨-, rfl, -⟩
        rfl

/-! ## Claim C10 -/

/-- Claim C10 (confirmed).  When the tab1 request omits the decorator
field, `request.form.get('decorator')` is `None` and the endpoint passes
it through unvalidated; once `handle_tab1` passes its earlier
`ValueError` gates (the pattern compiled and `findall` produced at least
one match), `len(decorator_str)` raises `TypeError`, which is not the
validation type `ValueError`, so `process_task`'s generic handler
reports HTTP 500 instead of 400. -/
theorem claim_c10 (ms : List FindallItem) (hms : ms ≠ []) :
    handle_tab1Core true ms none =
      Except.error (PyErr.typeError ("object of type 'NoneType' has no len()")) ∧
    (∀ msg : String,
      handle_tab1Core true ms none ≠ Except.error (PyErr.valueError msg)) ∧
    tab1HttpStatus (handle_tab1Core true ms none) = 500 := by
  have h1 : handle_tab1Core true ms none =
      Except.error (PyErr.typeError ("object of type 'NoneType' has no len()")) := by
    simp only [handle_tab1Core]
    rw [if_neg (by simp : ¬(true = false)), if_neg hms]
  refine ⟨h1, ?_, ?_⟩
  · intro msg
    rw [h1]
    intro hcontra
    injection hcontra with h
    exact PyErr.noConfusion h
  · rw [h1]
    rfl

/-- Witness for C10: a single string match, decorator absent. -/
theorem c10_witness :
    ([FindallItem.str ("x")] : List FindallItem) ≠ [] ∧
    tab1HttpStatus (handle_tab1Core true ([FindallItem.str ("x")]) none) = 500 :=
  ⟨List.cons_ne_nil _ _, (claim_c10 ([FindallItem.str ("x")]) (List.cons_ne_nil _ _)).2.2⟩

/-! ## Lemmas about the sample parser (claims C1, C4) -/

theorem getD_append_length :
    ∀ (l : List Char) (c : Char) (r : List Char), (l ++ c :: r).getD l.length ' ' = c := by
  intro l
  induction l with
  | nil => intro c r; rfl
  | cons x xs ih => intro c r; exact ih c r

theorem drop_append_cons :
    ∀ (l : List Char) (c : Char) (r : List Char), (l ++ c :: r).drop (l.length + 1) = r := by
  intro l c r
  have h : l ++ c :: r = (l ++ [c]) ++ r := by simp
  rw [h, show l.length + 1 = (l ++ [c]).length by simp]
  exact List.drop_left _ _

theorem not_isPyWS_of_delimClassB {c : Char} (h : delimClassB c = true) :
    isPyWS c = false := by
  simp only [delimClassB, Bool.and_eq_true, Bool.not_eq_true'] at h
  exact h.2

/-- At most one position can close a match of the sample regex: the
closing delimiter is followed by whitespace only, while delimiter-class
characters are never whitespace. -/
theorem okClose_unique (cs : List Char) (j1 j2 : Nat)
    (h1 : okClose cs j1 = true) (h2 : okClose cs j2 = true)
    (hj1 : j1 < cs.length) (hj2 : j2 < cs.length) : j1 = j2 := by
  have key : ∀ a b : Nat, okClose cs a = true → okClose cs b = true →
      a < cs.length → b < cs.length → ¬a < b := by
    intro a b ha hb hal hbl hab
    simp only [okClose, Bool.and_eq_true] at ha hb
    have hws : isPyWS (cs.getD b ' ') = true := by
      have hidx : b - (a + 1) < (cs.drop (a + 1)).length := by
        rw [List.length_drop]
        omega
      have hgd : (cs.drop (a + 1))[b - (a + 1)] = cs[b] := by
        rw [List.getElem_drop]
        congr 1
        omega
      have hmem : cs.getD b ' ' ∈ cs.drop (a + 1) := by
        rw [List.getD_eq_getElem cs ' ' hbl, ← hgd]
        exact List.getElem_mem _
      exact List.all_eq_true.mp ha.2 _ hmem
    have hdel : delimClassB (cs.getD b ' ') = true := hb.1
    rw [not_isPyWS_of_delimClassB hdel] at hws
    exact Bool.noConfusion hws
  rcases Nat.lt_trichotomy j1 j2 with h | h | h
  · exact absurd h (key j1 j2 h1 h2 hj1 hj2)
  · exact h
  · exact absurd h (key j2 j1 h2 h1 hj2 hj1)

/-- `find?` returns the designated element when it is the only one the
predicate accepts among the candidates. -/
theorem find?_eq_some_of_unique {p : Nat → Bool} :
    ∀ (l : List Nat) (j : Nat), j ∈ l → p j = true →
      (∀ x ∈ l, p x = true → x = j) → l.find? p = some j := by
  intro l
  induction l with
  | nil =>
      intro j hj _ _
      exact absurd hj (List.not_mem_nil j)
  | cons y ys ih =>
      intro j hj hp huniq
      by_cases hy : p y = true
      · have : y = j := huniq y (List.mem_cons_self _ _) hy
        simp [List.find?, hy, this, hp]
      · have hyf : p y = false := by
          cases hx : p y
          · rfl
          · exact absurd hx hy
        rw [List.find?, hyf]
        have hj' : j ∈ ys := by
          rcases List.mem_cons.mp hj with rfl | h
          · exact absurd hp hy
          · exact h
        exact ih j hj' hp (fun x hx hpx => huniq x (List.mem_cons_of_mem _ hx) hpx)

/-- Introduction form for `prefixSplittable`: a whitespace-padded
nonempty newline-free segment is accepted. -/
theorem prefixSplittable_intro (w1 a w2 : List Char)
    (hw1 : ∀ c ∈ w1, isPyWS c = true) (ha : a ≠ []) (hanl : ∀ c ∈ a, c ≠ '\n')
    (hw2 : ∀ c ∈ w2, isPyWS c = true) :
    prefixSplittable (w1 ++ a ++ w2) = true := by
  unfold prefixSplittable
  apply List.any_eq_true.mpr
  refine ⟨w1.length, ?_, ?_⟩
  · apply List.mem_range.mpr
    simp only [List.length_append]
    omega
  · apply List.any_eq_true.mpr
    refine ⟨w1.length + a.length, ?_, ?_⟩
    · apply List.mem_range.mpr
      simp only [List.length_append]
      omega
    · have hp : w1.length < w1.length + a.length := by
        have := List.length_pos.mpr ha
        omega
      have htake : (w1 ++ a ++ w2).take w1.length = w1 := by
        rw [List.append_assoc]
        exact List.take_left _ _
      have hdrop : (w1 ++ a ++ w2).drop (w1.length + a.length) = w2 := by
        rw [show w1.length + a.length = (w1 ++ a).length by simp]
        exact List.drop_left _ _
      have hd2 : (w1 ++ a ++ w2).drop w1.length = a ++ w2 := by
        rw [List.append_assoc]
        exact List.drop_left _ _
      have hslice :
          ((w1 ++ a ++ w2).drop w1.length).take (w1.length + a.length - w1.length) = a := by
        rw [hd2, Nat.add_sub_cancel_left]
        exact List.take_left _ _
      rw [Bool.and_eq_true, Bool.and_eq_true, Bool.and_eq_true]
      refine ⟨⟨⟨?_, ?_⟩, ?_⟩, ?_⟩
      · exact decide_eq_true hp
      · rw [htake]
        exact List.all_eq_true.mpr hw1
      · rw [hdrop]
        exact List.all_eq_true.mpr hw2
      · rw [hslice]
        exact List.all_eq_true.mpr (fun c hc => decide_eq_true (hanl c hc))

/-- Elimination form for `prefixSplittable`. -/
theorem prefixSplittable_elim (t : List Char) (h : prefixSplittable t = true) :
    ∃ w1 a w2, t = w1 ++ a ++ w2 ∧ (∀ c ∈ w1, isPyWS c = true) ∧ a ≠ [] ∧
      (∀ c ∈ a, c ≠ '\n') ∧ (∀ c ∈ w2, isPyWS c = true) := by
  unfold prefixSplittable at h
  obtain ⟨p, hpmem, h⟩ := List.any_eq_true.mp h
  obtain ⟨q, hqmem, h⟩ := List.any_eq_true.mp h
  rw [Bool.and_eq_true, Bool.and_eq_true, Bool.and_eq_true] at h
  obtain ⟨⟨⟨hpq, htake⟩, hdrop⟩, hslice⟩ := h
  have hpq' : p < q := of_decide_eq_true hpq
  have hq' : q ≤ t.length := by
    have := List.mem_range.mp hqmem
    omega
  refine ⟨t.take p, (t.drop p).take (q - p), t.drop q, ?_, ?_, ?_, ?_, ?_⟩
  · have h1 : (t.drop p).take (q - p) ++ (t.drop p).drop (q - p) = t.drop p :=
      List.take_append_drop _ _
    have h2 : (t.drop p).drop (q - p) = t.drop q := by
      rw [List.drop_drop]
      congr 1
      omega
    calc t = t.take p ++ t.drop p := (List.take_append_drop _ _).symm
      _ = t.take p ++ ((t.drop p).take (q - p) ++ (t.drop p).drop (q - p)) := by rw [h1]
      _ = t.take p ++ ((t.drop p).take (q - p) ++ t.drop q) := by rw [h2]
      _ = t.take p ++ (t.drop p).take (q - p) ++ t.drop q := by rw [List.append_assoc]
  · exact List.all_eq_true.mp htake
  · have hlen : ((t.drop p).take (q - p)).length = q - p := by
      rw [List.length_take, List.length_drop]
      omega
    intro hnil
    rw [hnil] at hlen
    simp only [List.length_nil] at hlen
    omega
  · intro c hc
    exact of_decide_eq_true (List.all_eq_true.mp hslice c hc)
  · exact List.all_eq_true.mp hdrop

/-- On any string of the shape the sample regex accepts, the parser
reports exactly the delimiter of that decomposition.  (Backtracking
order is immaterial: the closing position is unique, so group 2 is
forced.) -/
theorem deriveParse_eq_of_parts (w1 a w2 : List Char) (d : Char) (b w3 : List Char)
    (hw1 : ∀ c ∈ w1, isPyWS c = true) (ha : a ≠ []) (hanl : ∀ c ∈ a, c ≠ '\n')
    (hw2 : ∀ c ∈ w2, isPyWS c = true) (hd : delimClassB d = true)
    (hbnl : ∀ c ∈ b, c ≠ '\n') (hw3 : ∀ c ∈ w3, isPyWS c = true) :
    deriveParse (w1 ++ a ++ w2 ++ [d] ++ b ++ [d] ++ w3) = some d := by
  have arr1 : w1 ++ a ++ w2 ++ [d] ++ b ++ [d] ++ w3
      = (w1 ++ a ++ w2) ++ d :: (b ++ d :: w3) := by
    simp [List.append_assoc]
  have arr2 : w1 ++ a ++ w2 ++ [d] ++ b ++ [d] ++ w3
      = ((w1 ++ a ++ w2) ++ d :: b) ++ d :: w3 := by
    simp [List.append_assoc]
  generalize hcs : w1 ++ a ++ w2 ++ [d] ++ b ++ [d] ++ w3 = cs at arr1 arr2 ⊢
  set i0 := (w1 ++ a ++ w2).length with hi0
  set j0 := i0 + 1 + b.length with hj0
  have hgetI : cs.getD i0 ' ' = d := by
    rw [arr1, hi0]
    exact getD_append_length _ _ _
  have hdropI : cs.drop (i0 + 1) = b ++ d :: w3 := by
    rw [arr1, hi0]
    exact drop_append_cons _ _ _
  have hlen2 : ((w1 ++ a ++ w2) ++ d :: b).length = j0 := by
    simp only [hj0, hi0, List.length_append, List.length_cons]
    omega
  have hgetJ : cs.getD j0 ' ' = d := by
    rw [arr2, ← hlen2]
    exact getD_append_length _ _ _
  have hdropJ : cs.drop (j0 + 1) = w3 := by
    rw [arr2, show j0 + 1 = ((w1 ++ a ++ w2) ++ d :: b).length + 1 by rw [hlen2]]
    exact drop_append_cons _ _ _
  have hlencs : cs.length = j0 + 1 + w3.length := by
    rw [arr2, List.length_append, hlen2, List.length_cons]
    omega
  have hokJ : okClose cs j0 = true := by
    unfold okClose
    rw [hgetJ, hdropJ, Bool.and_eq_true]
    exact ⟨hd, List.all_eq_true.mpr hw3⟩
  have hjlt : j0 < cs.length := by omega
  have hfind : (List.range cs.length).find? (fun j => okClose cs j) = some j0 := by
    apply find?_eq_some_of_unique
    · exact List.mem_range.mpr hjlt
    · exact hokJ
    · intro x hx hpx
      exact okClose_unique cs x j0 hpx hokJ (List.mem_range.mp hx) hjlt
  have htake : cs.take i0 = w1 ++ a ++ w2 := by
    rw [arr1, hi0]
    exact List.take_left _ _
  have hmid : (cs.drop (i0 + 1)).take (j0 - (i0 + 1)) = b := by
    rw [hdropI, show j0 - (i0 + 1) = b.length by omega]
    exact List.take_left _ _
  have hokI : okOpen cs i0 j0 = true := by
    unfold okOpen
    rw [Bool.and_eq_true, Bool.and_eq_true]
    refine ⟨⟨?_, ?_⟩, ?_⟩
    · rw [hgetI, hgetJ]
      exact decide_eq_true rfl
    · rw [hmid]
      exact List.all_eq_true.mpr (fun c hc => decide_eq_true (hbnl c hc))
    · rw [htake]
      exact prefixSplittable_intro w1 a w2 hw1 ha hanl hw2
  have hany : (List.range j0).any (fun i => okOpen cs i j0) = true :=
    List.any_eq_true.mpr ⟨i0, List.mem_range.mpr (by omega), hokI⟩
  unfold deriveParse
  rw [hfind]
  show (if (List.range j0).any (fun i => okOpen cs i j0) = true
        then some (cs.getD j0 ' ') else none) = some d
  rw [if_pos hany, hgetJ]

/-- Soundness of the parser: a successful parse exhibits the regex's
decomposition of the sample. -/
theorem deriveParse_shape_of_some (cs : List Char) (ch : Char)
    (h : deriveParse cs = some ch) : deriveShape cs := by
  unfold deriveParse at h
  cases hfind : (List.range cs.length).find? (fun j => okClose cs j) with
  | none =>
      rw [hfind] at h
      exact Option.noConfusion h
  | some j =>
      rw [hfind] at h
      change (if (List.range j).any (fun i => okOpen cs i j) = true
              then some (cs.getD j ' ') else none) = some ch at h
      by_cases hany : (List.range j).any (fun i => okOpen cs i j) = true
      · have hok : okClose cs j = true := List.find?_some hfind
        have hjlt : j < cs.length := List.mem_range.mp (List.mem_of_find?_eq_some hfind)
        obtain ⟨i, himem, hopen⟩ := List.any_eq_true.mp hany
        have hij : i < j := List.mem_range.mp himem
        simp only [okClose, Bool.and_eq_true] at hok
        obtain ⟨hdel, htail⟩ := hok
        simp only [okOpen, Bool.and_eq_true] at hopen
        obtain ⟨⟨heq, hmid⟩, hpre⟩ := hopen
        have heq' : cs.getD i ' ' = cs.getD j ' ' := of_decide_eq_true heq
        obtain ⟨w1, a, w2, hteq, hw1, hane, hanl, hw2⟩ := prefixSplittable_elim _ hpre
        have hilt : i < cs.length := by omega
        have hgi : cs.getD i ' ' = cs[i] := List.getD_eq_getElem cs ' ' hilt
        have hgj : cs.getD j ' ' = cs[j] := List.getD_eq_getElem cs ' ' hjlt
        have e1 : cs = cs.take i ++ cs.drop i := (List.take_append_drop _ _).symm
        have e2 : cs.drop i = cs[i] :: cs.drop (i + 1) := List.drop_eq_getElem_cons hilt
        have e4 : (cs.drop (i + 1)).drop (j - (i + 1)) = cs.drop j := by
          rw [List.drop_drop]
          congr 1
          omega
        have e5 : cs.drop j = cs[j] :: cs.drop (j + 1) := List.drop_eq_getElem_cons hjlt
        have step1 : cs.drop (i + 1) =
            (cs.drop (i + 1)).take (j - (i + 1)) ++ cs.drop j := by
          rw [← e4]
          exact (List.take_append_drop _ _).symm
        have step2 : cs.drop i = cs.getD i ' ' ::
            ((cs.drop (i + 1)).take (j - (i + 1)) ++ cs.drop j) := by
          rw [← step1, hgi]
          exact e2
        have step3 : cs.drop j = cs.getD j ' ' :: cs.drop (j + 1) := by
          rw [hgj]
          exact e5
        refine ⟨w1, a, w2, cs.getD j ' ', (cs.drop (i + 1)).take (j - (i + 1)),
          cs.drop (j + 1), ?_, hw1, hane, hanl, hw2, hdel, ?_, ?_⟩
        · calc cs = cs.take i ++ cs.drop i := e1
            _ = cs.take i ++ (cs.getD i ' ' ::
                ((cs.drop (i + 1)).take (j - (i + 1)) ++ cs.drop j)) := by rw [← step2]
            _ = cs.take i ++ (cs.getD i ' ' ::
                ((cs.drop (i + 1)).take (j - (i + 1)) ++
                  (cs.getD j ' ' :: cs.drop (j + 1)))) := by rw [← step3]
            _ = (w1 ++ a ++ w2) ++ (cs.getD j ' ' ::
                ((cs.drop (i + 1)).take (j - (i + 1)) ++
                  (cs.getD j ' ' :: cs.drop (j + 1)))) := by rw [hteq, heq']
            _ = w1 ++ a ++ w2 ++ [cs.getD j ' '] ++
                (cs.drop (i + 1)).take (j - (i + 1)) ++ [cs.getD j ' '] ++
                cs.drop (j + 1) := by simp [List.append_assoc]
        · intro c hc
          exact of_decide_eq_true (List.all_eq_true.mp hmid c hc)
        · exact List.all_eq_true.mp htail
      · rw [if_neg hany] at h
        exact Option.noConfusion h

/-- Completeness of the parser: any sample of the accepted shape
parses. -/
theorem deriveParse_isSome_of_shape (cs : List Char) (h : deriveShape cs) :
    ∃ ch, deriveParse cs = some ch := by
  obtain ⟨w1, a, w2, d, b, w3, hcs, hw1, ha, hanl, hw2, hd, hbnl, hw3⟩ := h
  refine ⟨d, ?_⟩
  rw [hcs]
  exact deriveParse_eq_of_parts w1 a w2 d b w3 hw1 ha hanl hw2 hd hbnl hw3

/-! ## Claim C4 -/

/-- Claim C4 (confirmed).  `generate_regex_from_sample` raises its
`ValueError` (the only exception it raises; `/api/generate-regex` maps
it to HTTP 400) for every sample that does not decompose as
`ws* A ws* <d> B <d> ws*` with a single delimiter character from the
class excluding Hangul, Latin letters, digits and whitespace enclosing
the two segments; in particular for "A+B-". -/
theorem claim_c4 (s : String) (h : ¬deriveShape s.data) :
    generate_regex_from_sample s =
      Except.error ("입력 형식이 올바르지 않습니다. '용어<기호>원어<기호>' 형식으로 입력해주세요. 예: 라몬즈+Ramones+") := by
  cases hp : deriveParse s.data with
  | none =>
      unfold generate_regex_from_sample
      rw [hp]
  | some ch => exact absurd (deriveParse_shape_of_some _ _ hp) h

/-- Witness for C4: the sample "A+B-" of the claim has no valid
decomposition (its parser rejects it, and parsing is complete for the
shape), so derivation fails. -/
theorem c4_witness :
    ¬deriveShape (("A+B-").data) ∧
    generate_regex_from_sample ("A+B-") =
      Except.error ("입력 형식이 올바르지 않습니다. '용어<기호>원어<기호>' 형식으로 입력해주세요. 예: 라몬즈+Ramones+") := by
  have hns : ¬deriveShape (("A+B-").data) := by
    intro hs
    obtain ⟨ch, hch⟩ := deriveParse_isSome_of_shape _ hs
    rw [show deriveParse (("A+B-").data) = none from rfl] at hch
    exact Option.noConfusion hch
  exact ⟨hns, claim_c4 ("A+B-") hns⟩

/-! ## Lemmas about the emitted pattern's search (claim C1) -/

/-- A greedy class repetition consumes exactly a run bounded by a
non-member. -/
theorem maxRun_append (p : Char → Bool) :
    ∀ (A : List Char) (d : Char) (r : List Char), (∀ c ∈ A, p c = true) → p d = false →
      maxRun p (A ++ d :: r) = A.length := by
  intro A
  induction A with
  | nil =>
      intro d r _ hd
      simp [maxRun, hd]
  | cons x xs ih =>
      intro d r hA hd
      simp only [List.cons_append, maxRun, List.append_eq]
      rw [if_pos (hA x (List.mem_cons_self _ _)),
        ih d r (fun c hc => hA c (List.mem_cons_of_mem _ hc)) hd]
      simp

/-- The star exits and the closing delimiter matches when the remaining
text is exactly the closing delimiter. -/
theorem g2star_single (d : Char) (f : Nat) : g2star d (f + 1) [d] = some 0 := by
  simp only [g2star]
  by_cases hd : d = ','
  · rw [if_pos hd]
    simp [tryChunks, maxRun]
  · rw [if_neg hd]
    simp

/-- Group 2 greedily consumes a full single-term run up to the closing
delimiter. -/
theorem g2match_of (d : Char) (B : List Char) (hB : ∀ c ∈ B, g2char c = true)
    (hd : g2char d = false) (hne : B ≠ []) : g2match d (B ++ [d]) = some B.length := by
  cases B with
  | nil => exact absurd rfl hne
  | cons x xs =>
      unfold g2match
      have hrun : maxRun g2char ((x :: xs) ++ [d]) = xs.length + 1 := by
        simpa using maxRun_append g2char (x :: xs) d [] hB hd
      rw [hrun]
      simp only [tryChunks]
      have hdrop : ((x :: xs) ++ [d]).drop (xs.length + 1) = [d] := by
        have h := List.drop_left (x :: xs) [d]
        rw [List.length_cons] at h
        exact h
      rw [hdrop]
      have hfuel : ((x :: xs) ++ [d]).length = xs.length + 2 := by simp
      rw [hfuel, g2star_single]
      rfl

/-- The search of the emitted pattern over a clean sample: the leftmost
start is position 0, group 1 greedily consumes exactly `A`, the literal
delimiter matches, group 2 greedily consumes exactly `B`, and the
closing delimiter matches — all on the engine's first path, so the
reported groups are `A` and `B`. -/
theorem searchDerived_eq (A B : List Char) (d : Char)
    (hA : ∀ c ∈ A, g1char c = true) (hAne : A ≠ []) (hAlen : A.length ≤ 20)
    (hB : ∀ c ∈ B, g2char c = true) (hBne : B ≠ [])
    (hg1 : g1char d = false) (hg2 : g2char d = false) :
    searchDerived d (A ++ d :: (B ++ [d])) = some (A, B) := by
  cases A with
  | nil => exact absurd rfl hAne
  | cons x xs =>
      have hrun : maxRun g1char (x :: (xs ++ d :: (B ++ [d]))) = xs.length + 1 := by
        have h := maxRun_append g1char (x :: xs) d (B ++ [d]) hA hg1
        rw [List.cons_append, List.length_cons] at h
        exact h
      have hmin : min 20 (xs.length + 1) = xs.length + 1 := by
        apply Nat.min_eq_right
        rw [List.length_cons] at hAlen
        exact hAlen
      have hdrop1 : (x :: (xs ++ d :: (B ++ [d]))).drop (xs.length + 1) = d :: (B ++ [d]) := by
        have h := List.drop_left (x :: xs) (d :: (B ++ [d]))
        rw [List.cons_append, List.length_cons] at h
        exact h
      have htry : tryG1 d (x :: (xs ++ d :: (B ++ [d]))) (xs.length + 1)
          = some (xs.length + 1, B.length) := by
        simp only [tryG1]
        rw [hdrop1]
        show (if d = d then
                match g2match d (B ++ [d]) with
                | some k => some (xs.length + 1, k)
                | none => tryG1 d (x :: (xs ++ d :: (B ++ [d]))) xs.length
              else tryG1 d (x :: (xs ++ d :: (B ++ [d]))) xs.length)
            = some (xs.length + 1, B.length)
        rw [if_pos rfl, g2match_of d B hB hg2 hBne]
      have htk : (x :: (xs ++ d :: (B ++ [d]))).take (xs.length + 1) = x :: xs := by
        have h := List.take_left (x :: xs) (d :: (B ++ [d]))
        rw [List.cons_append, List.length_cons] at h
        exact h
      have hdr2 : (x :: (xs ++ d :: (B ++ [d]))).drop (xs.length + 1 + 1) = B ++ [d] := by
        have h := drop_append_cons (x :: xs) d (B ++ [d])
        rw [List.cons_append, List.length_cons] at h
        exact h
      show searchDerived d (x :: (xs ++ d :: (B ++ [d]))) = some (x :: xs, B)
      simp only [searchDerived]
      rw [hrun, hmin, htry]
      show some ((x :: (xs ++ d :: (B ++ [d]))).take (xs.length + 1),
                 ((x :: (xs ++ d :: (B ++ [d]))).drop (xs.length + 1 + 1)).take B.length)
          = some (x :: xs, B)
      rw [htk, hdr2, List.take_left B [d]]

/-! ## Claim C1 -/

/-- Claim C1 (counterexample).  The sample "!+x+" is valid ("!" is a
nonempty segment, "+" a delimiter outside the excluded classes, "x" the
second segment), so derivation succeeds — but searching the emitted
pattern in the sample itself finds no match at all ('!' is outside
group 1's character class), let alone one capturing "!" and "x". -/
theorem c1_counterexample :
    generate_regex_from_sample ("!+x+") = Except.ok (mkDerivedPattern '+') ∧
    searchDerived '+' (("!+x+").data) = none := by
  exact ⟨rfl, rfl⟩

/-- Claim C1 (corrected).  For a sample `A<d>B<d>` whose delimiter `d`
is outside the excluded classes (not Hangul, Latin, digit, whitespace)
and also outside both emitted character classes, with `A` a nonempty
newline-free string of at most 20 characters from group 1's class
(Hangul, Latin, digits, whitespace, '.') and `B` a nonempty newline-free
string from the single-term class (Latin, digits, whitespace, '.', '-',
parentheses, U+00C0-U+017F, U+4E00-U+9FFF), derivation succeeds with
the pattern built from `d`, and searching that pattern in the sample
captures group 1 = `A` and group 2 = `B` exactly. -/
theorem claim_c1 (A B : List Char) (d : Char)
    (hAne : A ≠ []) (hAlen : A.length ≤ 20) (hA : ∀ c ∈ A, g1char c = true)
    (hAnl : '\n' ∉ A)
    (hBne : B ≠ []) (hB : ∀ c ∈ B, g2char c = true) (hBnl : '\n' ∉ B)
    (hdel : delimClassB d = true) (hg1 : g1char d = false) (hg2 : g2char d = false) :
    generate_regex_from_sample (String.mk (A ++ d :: (B ++ [d]))) =
      Except.ok (mkDerivedPattern d) ∧
    searchDerived d (A ++ d :: (B ++ [d])) = some (A, B) := by
  constructor
  · have hp : deriveParse (A ++ d :: (B ++ [d])) = some d := by
      have harr : A ++ d :: (B ++ [d]) = [] ++ A ++ [] ++ [d] ++ B ++ [d] ++ [] := by
        simp
      rw [harr]
      exact deriveParse_eq_of_parts [] A [] d B []
        (fun c hc => absurd hc (List.not_mem_nil c))
        hAne (fun c hc he => hAnl (he ▸ hc))
        (fun c hc => absurd hc (List.not_mem_nil c))
        hdel (fun c hc he => hBnl (he ▸ hc))
        (fun c hc => absurd hc (List.not_mem_nil c))
    unfold generate_regex_from_sample
    rw [show (String.mk (A ++ d :: (B ++ [d]))).data = A ++ d :: (B ++ [d]) from rfl, hp]
  · exact searchDerived_eq A B d hA hAne hAlen hB hBne hg1 hg2

/-- Witness for C1: the spec's end-to-end sample "라몬즈+Ramones+". -/
theorem c1_witness :
    generate_regex_from_sample
        (String.mk ((("라몬즈").data) ++ '+' :: ((("Ramones").data) ++ ['+']))) =
      Except.ok (mkDerivedPattern '+') ∧
    searchDerived '+' ((("라몬즈").data) ++ '+' :: ((("Ramones").data) ++ ['+'])) =
      some ((("라몬즈").data), (("Ramones").data)) :=
  claim_c1 (("라몬즈").data) (("Ramones").data) '+'
    (by decide) (by decide) (by decide) (by decide)
    (by decide) (by decide) (by decide) (by decide) (by decide) (by decide)
